import Mathlib

/-!
Verification of the streaming chat client (ChatAI).

Text is modelled as `List Char` (JavaScript strings); `str` converts a
Lean string literal.  The frame decoder of `streamChat`
(src/services/api.ts), the throttled publisher and conversation-store
merge of `handleSendMessage` (src/App.tsx) and the persistence filter
`getSessionsForStorage` are embedded below, and the spec's claims about
them are settled as theorems.
-/

namespace ChatAI

/-- JavaScript strings are modelled as lists of characters. -/
abbrev Str := List Char

/-- Conversion of a Lean string literal into the model type. -/
def str (s : String) : Str := s.data

/-- Whitespace test used by `String.prototype.trim` (restricted to the
characters that can actually occur inside a decoded line). -/
def isWs (c : Char) : Bool := c = ' ' || c = '\t' || c = '\n' || c = '\r'

/-- JavaScript `line.trim()`: strip whitespace from both ends. -/
def trimStr (l : Str) : Str :=
  ((l.dropWhile isWs).reverse.dropWhile isWs).reverse

/-- JavaScript `buffer.split("\n")` together with `lines.pop()`:
returns the complete lines (text before each newline) and the trailing
text after the last newline, which `streamChat` keeps as the buffer. -/
def splitNl : Str → List Str × Str
  | [] => ([], [])
  | c :: cs =>
    if c = '\n' then
      ([] :: (splitNl cs).1, (splitNl cs).2)
    else
      match splitNl cs with
      | ([], rem) => ([], c :: rem)
      | (l :: ls, rem) => ((c :: l) :: ls, rem)

/-- The inner `for (const line of lines)` loop of `streamChat`
(src/services/api.ts lines 253-268).  `ps` models
`JSON.parse(line.slice(6))` followed by
`json.choices[0]?.delta?.content || ""`: `none` when `JSON.parse`
throws, `some c` (possibly empty) for the extracted content.  Returns
the deltas passed to `onChunk` in order, and whether the sentinel
`data: [DONE]` caused `streamChat` to return. -/
def procLines (ps : Str → Option Str) : List Str → List Str × Bool
  | [] => ([], false)
  | l :: ls =>
    if trimStr l = [] then procLines ps ls
    else if trimStr l = str "data: [DONE]" then ([], true)
    else if (str "data: ").isPrefixOf l then
      match ps (l.drop 6) with
      | some c =>
        if c = [] then procLines ps ls
        else ((c :: (procLines ps ls).1), (procLines ps ls).2)
      | none => procLines ps ls
    else procLines ps ls

theorem splitNl_no_nl : ∀ l : Str, '\n' ∉ l → splitNl l = ([], l) := by
  intro l
  induction l with
  | nil => intro _; rfl
  | cons c cs ih =>
    intro h
    have hc : ¬ c = '\n' := fun hc => h (hc ▸ List.mem_cons_self c cs)
    have hcs : '\n' ∉ cs := fun hm => h (List.mem_cons_of_mem c hm)
    simp [splitNl, hc, ih hcs]

theorem splitNl_snd_no_nl : ∀ l : Str, '\n' ∉ (splitNl l).2 := by
  intro l
  induction l with
  | nil => simp [splitNl]
  | cons c cs ih =>
    by_cases hc : c = '\n'
    · simpa [splitNl, hc] using ih
    · cases h : splitNl cs with
      | mk ls rem =>
        cases ls with
        | nil =>
          simp only [splitNl, hc, if_false, h]
          intro hm
          rcases List.mem_cons.mp hm with h1 | h2
          · exact hc h1.symm
          · exact ih (by simpa [h] using h2)
        | cons l ls' =>
          simp only [splitNl, hc, if_false, h]
          simpa [h] using ih

theorem splitNl_append (a b : Str) :
    splitNl (a ++ b) =
      ((splitNl a).1 ++ (splitNl ((splitNl a).2 ++ b)).1,
       (splitNl ((splitNl a).2 ++ b)).2) := by
  induction a with
  | nil => simp [splitNl]
  | cons c cs ih =>
    by_cases hc : c = '\n'
    · simp [splitNl, hc, ih]
    · cases h : splitNl cs with
      | mk ls rem =>
        rw [h] at ih
        cases h2 : splitNl (rem ++ b) with
        | mk ls2 rem2 =>
          cases ls with
          | nil =>
            rw [h2] at ih
            cases ls2 with
            | nil =>
              simp only [List.cons_append, splitNl, hc, if_false, h, h2]
              simp at ih
              rw [List.append_eq, ih]
              simp
            | cons l2 ls2' =>
              simp only [List.cons_append, splitNl, hc, if_false, h, h2]
              simp at ih
              rw [List.append_eq, ih]
              simp
          | cons l ls' =>
            rw [h2] at ih
            simp only [List.cons_append, splitNl, hc, if_false, h, h2]
            simp at ih
            rw [List.append_eq, ih]

theorem procLines_append (ps : Str → Option Str) (a b : List Str) :
    procLines ps (a ++ b) =
      (if (procLines ps a).2 then procLines ps a
       else ((procLines ps a).1 ++ (procLines ps b).1, (procLines ps b).2)) := by
  induction a with
  | nil => simp [procLines]
  | cons l ls ih =>
    by_cases h1 : trimStr l = []
    · simpa [procLines, h1] using ih
    · by_cases h2 : trimStr l = str "data: [DONE]"
      · show procLines ps (l :: (ls ++ b)) = _
        rw [procLines, procLines, if_neg h1, if_neg h1, if_pos h2, if_pos h2]
        simp
      · by_cases h3 : (str "data: ").isPrefixOf l
        · cases hps : ps (l.drop 6) with
          | none => simpa [procLines, h1, h2, h3, hps] using ih
          | some c =>
            by_cases hc : c = []
            · simpa [procLines, h1, h2, h3, hps, hc] using ih
            · show procLines ps (l :: (ls ++ b)) = _
              rw [procLines, procLines, if_neg h1, if_neg h1, if_neg h2,
                if_neg h2, if_pos h3, if_pos h3, hps]
              simp only [if_neg hc, ih]
              by_cases hfin : (procLines ps ls).2 <;> simp [hfin]
        · simpa [procLines, h1, h2, h3] using ih

/-- State of the `streamChat` read loop between two `reader.read()`
results: the unprocessed tail of the split buffer, and whether the
sentinel already made `streamChat` return (after which no further chunk
is ever processed). -/
structure DecSt where
  buffer : Str
  finished : Bool
deriving DecidableEq

/-- One iteration of the `while (true)` read loop of `streamChat` for a
non-final chunk: append to the buffer, split on newlines, keep the last
piece as the new buffer, process the complete lines.  Returns the new
state and the deltas emitted by this chunk. -/
def feed (ps : Str → Option Str) (st : DecSt) (chunk : Str) : DecSt × List Str :=
  if st.finished then (st, [])
  else
    let parts := splitNl (st.buffer ++ chunk)
    let r := procLines ps parts.1
    (⟨parts.2, r.2⟩, r.1)

/-- The whole read loop over a finite chunk sequence; after the last
chunk the transport reports `done` and the loop breaks, discarding any
text still in the buffer. -/
def feedAll (ps : Str → Option Str) (st : DecSt) : List Str → List Str
  | [] => []
  | ch :: chs => (feed ps st ch).2 ++ feedAll ps (feed ps st ch).1 chs

/-- The deltas `streamChat` passes to `onChunk` for a given sequence of
decoded chunks. -/
def decode (ps : Str → Option Str) (chunks : List Str) : List Str :=
  feedAll ps ⟨[], false⟩ chunks

/-- Frame extraction as a single-line function: the delta contributed by
one complete line, `none` when the line is not a well-formed frame.
(The sentinel line is handled separately by the decoder.) -/
def lineDelta (ps : Str → Option Str) (l : Str) : Option Str :=
  if (str "data: ").isPrefixOf l then
    match ps (l.drop 6) with
    | some c => if c = [] then none else some c
    | none => none
  else none

theorem feedAll_finished (ps : Str → Option Str) (b : Str) :
    ∀ chunks, feedAll ps ⟨b, true⟩ chunks = [] := by
  intro chunks
  induction chunks with
  | nil => rfl
  | cons ch chs ih => simp [feedAll, feed, ih]

/-- Core decoder equivalence: the incremental read loop emits exactly
the deltas obtained by processing the complete lines of the whole
concatenated text in one pass. -/
theorem feedAll_eq (ps : Str → Option Str) :
    ∀ chunks (buf : Str), '\n' ∉ buf →
      feedAll ps ⟨buf, false⟩ chunks =
        (procLines ps (splitNl (buf ++ chunks.foldr (· ++ ·) [])).1).1 := by
  intro chunks
  induction chunks with
  | nil =>
    intro buf hb
    simp [feedAll, splitNl_no_nl buf hb, procLines]
  | cons ch chs ih =>
    intro buf hb
    have hsplit := splitNl_append (buf ++ ch) (chs.foldr (· ++ ·) [])
    cases h1 : splitNl (buf ++ ch) with
    | mk ls rem =>
      rw [h1] at hsplit
      have hrem : '\n' ∉ rem := by
        have := splitNl_snd_no_nl (buf ++ ch)
        rw [h1] at this
        exact this
      cases hfin : (procLines ps ls).2 with
      | true =>
        have hmain : feedAll ps ⟨buf, false⟩ (ch :: chs) = (procLines ps ls).1 := by
          simp [feedAll, feed, h1, hfin, feedAll_finished]
        rw [hmain]
        have := procLines_append ps ls (splitNl (rem ++ chs.foldr (· ++ ·) [])).1
        simp only [List.foldr_cons, ← List.append_assoc, hsplit, this, hfin, if_true]
      | false =>
        have hmain : feedAll ps ⟨buf, false⟩ (ch :: chs) =
            (procLines ps ls).1 ++ feedAll ps ⟨rem, false⟩ chs := by
          simp [feedAll, feed, h1, hfin]
        rw [hmain, ih rem hrem]
        have := procLines_append ps ls (splitNl (rem ++ chs.foldr (· ++ ·) [])).1
        simp only [List.foldr_cons, ← List.append_assoc, hsplit, this, hfin,
          if_false, Bool.false_eq_true]

/-- Concatenation of a list of strings (JavaScript `parts.join("")`). -/
def joinStr (ls : List Str) : Str := ls.foldr (· ++ ·) []

theorem joinStr_append (a b : List Str) :
    joinStr (a ++ b) = joinStr a ++ joinStr b := by
  induction a with
  | nil => simp [joinStr]
  | cons x xs ih => simp [joinStr, List.foldr_cons] at ih ⊢; simp [ih]

/-- The decoder's output depends only on the complete lines of the
concatenated chunk text. -/
theorem decode_eq (ps : Str → Option Str) (chunks : List Str) :
    decode ps chunks =
      (procLines ps (splitNl (joinStr chunks)).1).1 := by
  have := feedAll_eq ps chunks [] (by simp)
  simpa [decode, joinStr] using this

/-- A line whose JavaScript `trim` is empty consists of whitespace only. -/
theorem all_ws_of_trim_nil (l : Str) (h : trimStr l = []) : ∀ x ∈ l, isWs x := by
  have h1 : (l.dropWhile isWs).reverse.dropWhile isWs = [] := by
    have h0 := congrArg List.reverse h
    simpa [trimStr] using h0
  have h2 : ∀ x ∈ (l.dropWhile isWs).reverse, isWs x :=
    List.dropWhile_eq_nil_iff.mp h1
  have h3 : ∀ x ∈ l.dropWhile isWs, isWs x :=
    fun x hx => h2 x (List.mem_reverse.mpr hx)
  intro x hx
  rw [← List.takeWhile_append_dropWhile (p := isWs) (l := l)] at hx
  rcases List.mem_append.mp hx with h4 | h4
  · exact List.mem_takeWhile_imp h4
  · exact h3 x h4

/-- On line lists free of sentinel lines, `procLines` is a plain
`filterMap` of the per-line frame extraction. -/
theorem procLines_filterMap (ps : Str → Option Str) :
    ∀ ls : List Str, (∀ l ∈ ls, trimStr l ≠ str "data: [DONE]") →
      procLines ps ls = (ls.filterMap (lineDelta ps), false) := by
  intro ls
  induction ls with
  | nil => intro _; rfl
  | cons l ls ih =>
    intro h
    have hl : trimStr l ≠ str "data: [DONE]" := h l (List.mem_cons_self l ls)
    have hls := ih fun x hx => h x (List.mem_cons_of_mem l hx)
    by_cases h1 : trimStr l = []
    · have hnp : ¬ (str "data: ").isPrefixOf l := by
        intro hp
        rcases List.isPrefixOf_iff_prefix.mp hp with ⟨t, ht⟩
        have hd : 'd' ∈ l := by
          rw [← ht]
          exact List.mem_append_left _ (by decide)
        exact absurd (all_ws_of_trim_nil l h1 'd' hd) (by decide)
      simp [procLines, h1, hls, List.filterMap_cons, lineDelta, hnp]
    · by_cases h3 : (str "data: ").isPrefixOf l
      · cases hps : ps (l.drop 6) with
        | none => simp [procLines, h1, hl, h3, hps, hls, List.filterMap_cons, lineDelta]
        | some c =>
          by_cases hc : c = []
          · simp [procLines, h1, hl, h3, hps, hc, hls, List.filterMap_cons, lineDelta]
          · simp [procLines, h1, hl, h3, hps, hc, hls, List.filterMap_cons, lineDelta]
      · simp [procLines, h1, hl, h3, hls, List.filterMap_cons, lineDelta]

theorem splitNl_concat_nl (r : Str) (h : '\n' ∉ r) :
    splitNl (r ++ ['\n']) = ([r], []) := by
  induction r with
  | nil => simp [splitNl]
  | cons c cs ih =>
    have hc : ¬ c = '\n' := fun hc => h (hc ▸ List.mem_cons_self c cs)
    have hcs : '\n' ∉ cs := fun hm => h (List.mem_cons_of_mem c hm)
    simp [splitNl, hc, ih hcs]

/-- A chunk text ending in a newline leaves an empty buffer. -/
theorem splitNl_snd_of_terminated (a : Str)
    (ha : a = [] ∨ ∃ a0, a = a0 ++ ['\n']) : (splitNl a).2 = [] := by
  rcases ha with h | ⟨a0, h⟩
  · simp [h, splitNl]
  · subst h
    rw [splitNl_append a0 ['\n']]
    rw [splitNl_concat_nl _ (splitNl_snd_no_nl a0)]

/-- Claim C3: for every sequence of chunks, the decoder's emitted
deltas are exactly (hence their concatenation equals that of) the
`delta.content` fields of the well-formed `data: ` frames among the
complete lines, in feed order; and any two chunk sequences with the
same concatenated text decode identically, so cut points are
irrelevant.  (Sentinel-free streams; the sentinel is claim C4.) -/
theorem C3_decoder_ordering (ps : Str → Option Str) (chunks chunks' : List Str)
    (hj : joinStr chunks = joinStr chunks')
    (hs : ∀ l ∈ (splitNl (joinStr chunks)).1, trimStr l ≠ str "data: [DONE]") :
    decode ps chunks = decode ps chunks' ∧
    joinStr (decode ps chunks) =
      joinStr (((splitNl (joinStr chunks)).1).filterMap (lineDelta ps)) := by
  constructor
  · rw [decode_eq, decode_eq, hj]
  · rw [decode_eq, procLines_filterMap ps _ hs]

/-- Concrete frame-payload parser used by the witnesses: payload `A`
carries delta `Hel`, payload `B` carries delta `lo`. -/
def psAB : Str → Option Str := fun p =>
  if p = str "A" then some (str "Hel")
  else if p = str "B" then some (str "lo") else none

theorem C3_decoder_ordering_witness :
    decode psAB [str "data: A\nda", str "ta: B\n"] =
      decode psAB [str "data: A\ndata: B\n"] ∧
    joinStr (decode psAB [str "data: A\nda", str "ta: B\n"]) =
      joinStr (((splitNl (joinStr [str "data: A\nda", str "ta: B\n"])).1).filterMap
        (lineDelta psAB)) :=
  C3_decoder_ordering psAB _ _ (by decide) (by decide)

/-- Claim C4: a complete line `data: [DONE]` makes the decoder signal
completion, and nothing after it — in the same chunk or any later
one — is ever emitted: the decoded output of a stream continuing past
the sentinel equals that of the stream cut right after it. -/
theorem C4_sentinel_termination (ps : Str → Option Str) (a b : Str)
    (ha : a = [] ∨ ∃ a0, a = a0 ++ ['\n']) :
    decode ps [a ++ (str "data: [DONE]" ++ ['\n']) ++ b] =
      decode ps [a ++ (str "data: [DONE]" ++ ['\n'])] ∧
    (feed ps ⟨[], false⟩ (a ++ (str "data: [DONE]" ++ ['\n']))).1.finished = true := by
  have hsnd := splitNl_snd_of_terminated a ha
  have hlines : ∀ x : Str, splitNl (a ++ ((str "data: [DONE]" ++ ['\n']) ++ x)) =
      ((splitNl a).1 ++ str "data: [DONE]" :: (splitNl x).1, (splitNl x).2) := by
    intro x
    rw [splitNl_append a ((str "data: [DONE]" ++ ['\n']) ++ x), hsnd]
    have hd : splitNl ((str "data: [DONE]" ++ ['\n']) ++ x) =
        (str "data: [DONE]" :: (splitNl x).1, (splitNl x).2) := by
      rw [splitNl_append (str "data: [DONE]" ++ ['\n']) x,
        splitNl_concat_nl _ (by decide)]
      simp
    simp only [List.append_assoc, List.singleton_append] at hd
    simp [hd]
  have hsent : ∀ X : List Str, procLines ps (str "data: [DONE]" :: X) = ([], true) := by
    intro X
    have h1 : ¬ trimStr (str "data: [DONE]") = [] := by decide
    have h2 : trimStr (str "data: [DONE]") = str "data: [DONE]" := by decide
    simp only [procLines]
    rw [if_neg h1, if_pos h2]
  have hstop : ∀ X : List Str,
      procLines ps ((splitNl a).1 ++ str "data: [DONE]" :: X) =
        (if (procLines ps (splitNl a).1).2 then procLines ps (splitNl a).1
         else ((procLines ps (splitNl a).1).1, true)) := by
    intro X
    rw [procLines_append, hsent X]
    by_cases hfin : (procLines ps (splitNl a).1).2 <;> simp [hfin]
  constructor
  · rw [decode_eq, decode_eq]
    have h1 : joinStr [a ++ (str "data: [DONE]" ++ ['\n']) ++ b] =
        a ++ ((str "data: [DONE]" ++ ['\n']) ++ b) := by simp [joinStr]
    have h2 : joinStr [a ++ (str "data: [DONE]" ++ ['\n'])] =
        a ++ ((str "data: [DONE]" ++ ['\n']) ++ []) := by simp [joinStr]
    rw [h1, h2, hlines b, hlines []]
    by_cases hfin : (procLines ps (splitNl a).1).2 <;> simp [hstop, hfin]
  · have h3 : ([] : Str) ++ (a ++ (str "data: [DONE]" ++ ['\n'])) =
        a ++ ((str "data: [DONE]" ++ ['\n']) ++ []) := by simp
    simp only [feed, Bool.false_eq_true, if_false, h3, hlines []]
    by_cases hfin : (procLines ps (splitNl a).1).2 <;> simp [hstop, hfin]

theorem C4_sentinel_termination_witness :
    decode psAB [(str "data: A" ++ ['\n']) ++ (str "data: [DONE]" ++ ['\n']) ++
        (str "data: B" ++ ['\n'])] =
      decode psAB [(str "data: A" ++ ['\n']) ++ (str "data: [DONE]" ++ ['\n'])] ∧
    (feed psAB ⟨[], false⟩ ((str "data: A" ++ ['\n']) ++
        (str "data: [DONE]" ++ ['\n']))).1.finished = true :=
  C4_sentinel_termination psAB _ _ (Or.inr ⟨str "data: A", by decide⟩)

/-- Claim C10: when the transport reports `done` while the buffer still
holds a final line not terminated by a newline, that text is discarded:
appending any newline-free tail chunk to a stream changes nothing, even
if the tail is itself a complete well-formed frame. -/
theorem C10_trailing_line_dropped (ps : Str → Option Str)
    (chunks : List Str) (extra : Str) (hx : '\n' ∉ extra) :
    decode ps (chunks ++ [extra]) = decode ps chunks := by
  rw [decode_eq, decode_eq, joinStr_append]
  have h1 : joinStr [extra] = extra := by simp [joinStr]
  rw [h1, splitNl_append (joinStr chunks) extra]
  have h2 : '\n' ∉ (splitNl (joinStr chunks)).2 ++ extra := by
    intro hm
    rcases List.mem_append.mp hm with h | h
    · exact splitNl_snd_no_nl (joinStr chunks) h
    · exact hx h
  rw [splitNl_no_nl _ h2]
  simp

theorem C10_trailing_line_dropped_witness :
    decode psAB ([] ++ [str "data: A"]) = decode psAB [] :=
  C10_trailing_line_dropped psAB [] (str "data: A") (by decide)

/-- The frame-validity predicate exactly as the spec words it
(claim C5): after trimming, the line is non-empty and begins with the
literal prefix `data: `.  Stated for comparison with the code, which
tests the prefix on the untrimmed line. -/
def specFrameValid (l : Str) : Bool :=
  !(trimStr l).isEmpty && (str "data: ").isPrefixOf (trimStr l)

/-- Claim C5, counterexample: the line ` data: A` (leading space) is a
valid frame by the spec's wording, and the parser here extracts a
non-empty delta from every attempted frame, yet the decoder emits
nothing for it — the code tests `startsWith` on the untrimmed line, so
no extraction attempt is made. -/
theorem C5_frame_validity_counterexample :
    specFrameValid (str " data: A") = true ∧
    decode (fun _ => some (str "x")) [str " data: A" ++ ['\n']] = [] := by
  constructor
  · decide
  · decide

/-- A line that is not a frame (no untrimmed `data: ` prefix) or whose
payload fails to parse (or parses to empty content) is skipped without
effect. -/
theorem procLines_skip (ps : Str → Option Str) (bad : Str) (post : List Str)
    (hbd : trimStr bad ≠ str "data: [DONE]")
    (hskip : (str "data: ").isPrefixOf bad = false ∨
      ps (bad.drop 6) = none ∨ ps (bad.drop 6) = some []) :
    procLines ps (bad :: post) = procLines ps post := by
  by_cases h1 : trimStr bad = []
  · simp [procLines, h1]
  · rcases hskip with h | h | h
    · simp [procLines, h1, hbd, h]
    · by_cases h3 : (str "data: ").isPrefixOf bad <;>
        simp [procLines, h1, hbd, h3, h]
    · by_cases h3 : (str "data: ").isPrefixOf bad <;>
        simp [procLines, h1, hbd, h3, h]

/-- Claim C5, amended: a delta-extraction attempt is made iff the
untrimmed line begins with `data: ` (and its trim is not the sentinel);
any other non-sentinel line — and any frame whose payload fails to
parse or yields no content — is discarded without aborting and without
changing the deltas of the surrounding lines; a frame whose payload
parses to non-empty content emits exactly that delta. -/
theorem C5_frame_validity_amended (ps : Str → Option Str)
    (pre post rest : List Str) (bad good c : Str)
    (hbd : trimStr bad ≠ str "data: [DONE]")
    (hskip : (str "data: ").isPrefixOf bad = false ∨
      ps (bad.drop 6) = none ∨ ps (bad.drop 6) = some [])
    (hgp : (str "data: ").isPrefixOf good = true)
    (hgd : trimStr good ≠ str "data: [DONE]")
    (hgc : ps (good.drop 6) = some c) (hcne : c ≠ []) :
    procLines ps (pre ++ bad :: post) = procLines ps (pre ++ post) ∧
    procLines ps (good :: rest) =
      (c :: (procLines ps rest).1, (procLines ps rest).2) := by
  constructor
  · rw [procLines_append, procLines_append, procLines_skip ps bad post hbd hskip]
  · have h1 : trimStr good ≠ [] := by
      intro h
      rcases List.isPrefixOf_iff_prefix.mp hgp with ⟨t, ht⟩
      have hd : 'd' ∈ good := by
        rw [← ht]
        exact List.mem_append_left _ (by decide)
      exact absurd (all_ws_of_trim_nil good h 'd' hd) (by decide)
    simp [procLines, h1, hgd, hgp, hgc, hcne]

theorem C5_frame_validity_amended_witness :
    procLines psAB ([] ++ str "noise" :: [str "data: B"]) =
      procLines psAB ([] ++ [str "data: B"]) ∧
    procLines psAB (str "data: A" :: [str "data: B"]) =
      (str "Hel" :: (procLines psAB [str "data: B"]).1,
        (procLines psAB [str "data: B"]).2) :=
  C5_frame_validity_amended psAB [] [str "data: B"] [str "data: B"]
    (str "noise") (str "data: A") (str "Hel")
    (by decide) (Or.inl (by decide)) (by decide) (by decide) (by decide)
    (by decide)

/-! ## Data model (src/types.ts) -/

/-- `Message.role`. -/
inductive Role
  | user
  | assistant
  | system
deriving DecidableEq

/-- `Attachment.type`. -/
inductive AttKind
  | image
  | file
deriving DecidableEq

/-- `Attachment` of src/types.ts. -/
structure Attachment where
  id : Str
  name : Str
  type : AttKind
  content : Str
  mimeType : Option Str
deriving DecidableEq

/-- `Message` of src/types.ts; `attachments` is an optional field. -/
structure Message where
  role : Role
  content : Str
  attachments : Option (List Attachment)
deriving DecidableEq

/-- `ChatSession` of src/types.ts. -/
structure ChatSession where
  id : Str
  projectId : Option Str
  title : Str
  messages : List Message
  timestamp : Nat
deriving DecidableEq

/-- The `sessions` state of `App` (the Conversation Store). -/
abbrev Store := List ChatSession

/-- The predicate of `att => att.type !== 'image'` in
`getSessionsForStorage`. -/
def keepAtt (att : Attachment) : Bool := att.type != AttKind.image

/-- `getSessionsForStorage` (src/App.tsx lines 77-85): the persistence
filter applied before `JSON.stringify`. -/
def getSessionsForStorage (sessions : Store) : Store :=
  sessions.map fun session =>
    { session with messages := session.messages.map fun msg =>
        { msg with attachments := msg.attachments.map (List.filter keepAtt) } }

theorem keepAtt_eq (a : Attachment) : keepAtt a = true ↔ a.type ≠ AttKind.image := by
  simp [keepAtt]

/-- Claim C9: the storage serialization filter is idempotent, its
output never contains an image-kind attachment, and every non-image
(document) attachment is retained unchanged in the session of the same
id. -/
theorem C9_persistence_filter (ss : Store) :
    getSessionsForStorage (getSessionsForStorage ss) = getSessionsForStorage ss ∧
    (∀ s ∈ getSessionsForStorage ss, ∀ m ∈ s.messages, ∀ l,
      m.attachments = some l → ∀ a ∈ l, a.type ≠ AttKind.image) ∧
    (∀ s ∈ ss, ∀ m ∈ s.messages, ∀ l, m.attachments = some l → ∀ a ∈ l,
      a.type ≠ AttKind.image →
      ∃ s' ∈ getSessionsForStorage ss, s'.id = s.id ∧
        ∃ m' ∈ s'.messages, ∃ l', m'.attachments = some l' ∧ a ∈ l') := by
  refine ⟨?_, ?_, ?_⟩
  · simp only [getSessionsForStorage, List.map_map]
    refine List.map_congr_left fun s _ => ?_
    simp only [Function.comp_apply, List.map_map]
    congr 1
    refine List.map_congr_left fun m _ => ?_
    simp only [Function.comp_apply, Option.map_map]
    congr 1
    cases m.attachments with
    | none => rfl
    | some l =>
      simp [List.filter_filter]
  · intro s hs m hm l hl a ha
    rcases List.mem_map.mp hs with ⟨s0, _, rfl⟩
    rcases List.mem_map.mp hm with ⟨m0, _, rfl⟩
    cases hatt : m0.attachments with
    | none => simp [hatt] at hl
    | some l0 =>
      rw [hatt] at hl
      have hl' : l = l0.filter keepAtt := by simpa using hl.symm
      subst hl'
      exact (keepAtt_eq a).mp (List.of_mem_filter ha)
  · intro s hs m hm l hl a ha hna
    refine ⟨{ s with messages := s.messages.map fun msg =>
        { msg with attachments := msg.attachments.map (List.filter keepAtt) } },
      List.mem_map_of_mem _ hs, rfl,
      { m with attachments := m.attachments.map (List.filter keepAtt) },
      List.mem_map_of_mem _ hm, l.filter keepAtt, ?_, ?_⟩
    · simp [hl]
    · exact List.mem_filter.mpr ⟨ha, (keepAtt_eq a).mpr hna⟩

/-- Sample data for the witnesses below. -/
def attImg : Attachment := ⟨str "a1", str "pic", AttKind.image, str "base64", none⟩

def attDoc : Attachment := ⟨str "a2", str "doc", AttKind.file, str "text", none⟩

def sampleMsg : Message := ⟨Role.user, str "hi", some [attImg, attDoc]⟩

def sampleSession : ChatSession := ⟨str "s1", none, str "T", [sampleMsg], 0⟩

theorem C9_persistence_filter_witness :
    getSessionsForStorage (getSessionsForStorage [sampleSession]) =
      getSessionsForStorage [sampleSession] ∧
    (∃ s' ∈ getSessionsForStorage [sampleSession], s'.id = sampleSession.id ∧
      ∃ m' ∈ s'.messages, ∃ l', m'.attachments = some l' ∧ attDoc ∈ l') :=
  ⟨(C9_persistence_filter [sampleSession]).1,
    (C9_persistence_filter [sampleSession]).2.2 sampleSession (by decide)
      sampleMsg (by decide) [attImg, attDoc] (by decide) attDoc (by decide)
      (by decide)⟩

/-! ## handleSendMessage (src/App.tsx lines 177-261) -/

/-- `setSessions(prev => prev.map(s => s.id === sid ? f(s) : s))`:
every store mutation in `handleSendMessage` has this shape, guarded
only by the captured session id `sessionIdForRequest`. -/
def updateSessions (sid : Str) (f : ChatSession → ChatSession) (store : Store) : Store :=
  store.map fun s => if s.id = sid then f s else s

/-- `content.slice(0, 30) || "New Chat"` in the title computation
(src/App.tsx line 193). -/
def titleFor (content : Str) : Str :=
  if content.take 30 = [] then str "New Chat" else content.take 30

/-- The optimistic updates at the start of `handleSendMessage`
(src/App.tsx lines 183-207): find the current session, append the user
message (recomputing the title iff the session had no messages), then
append the empty assistant placeholder.  `none` models the early
`return` when the session id is not in the store. -/
def handleSendStart (store : Store) (sid content : Str)
    (atts : List Attachment) : Option Store :=
  match store.find? (fun s => s.id == sid) with
  | none => none
  | some session =>
    let updatedMessages := session.messages ++ [⟨Role.user, content, some atts⟩]
    let store1 := updateSessions sid (fun s =>
      { s with messages := updatedMessages,
               title := if s.messages.length = 0 then titleFor content else s.title })
      store
    some (updateSessions sid (fun s =>
      { s with messages := updatedMessages ++ [⟨Role.assistant, [], none⟩] }) store1)

theorem updateSessions_eq (sid : Str) (f : ChatSession → ChatSession)
    (pre post : Store) (s0 : ChatSession) (hid : s0.id = sid)
    (hpre : ∀ s ∈ pre, s.id ≠ sid) (hpost : ∀ s ∈ post, s.id ≠ sid) :
    updateSessions sid f (pre ++ s0 :: post) = pre ++ f s0 :: post := by
  simp only [updateSessions, List.map_append, List.map_cons, if_pos hid]
  congr 1
  · calc pre.map (fun s => if s.id = sid then f s else s) = pre.map id :=
          List.map_congr_left fun s hs => by simp [if_neg (hpre s hs)]
      _ = pre := List.map_id pre
  · congr 1
    calc post.map (fun s => if s.id = sid then f s else s) = post.map id :=
          List.map_congr_left fun s hs => by simp [if_neg (hpost s hs)]
      _ = post := List.map_id post

theorem updateSessions_nomatch (sid : Str) (f : ChatSession → ChatSession)
    (store : Store) (h : ∀ s ∈ store, s.id ≠ sid) :
    updateSessions sid f store = store := by
  calc store.map (fun s => if s.id = sid then f s else s) = store.map id :=
        List.map_congr_left fun s hs => by simp [if_neg (h s hs)]
    _ = store := List.map_id store

theorem find?_session (sid : Str) (pre post : Store) (s0 : ChatSession)
    (hid : s0.id = sid) (hpre : ∀ s ∈ pre, s.id ≠ sid) :
    (pre ++ s0 :: post).find? (fun s => s.id == sid) = some s0 := by
  induction pre with
  | nil =>
    simp only [List.nil_append]
    exact List.find?_cons_of_pos _ (by simp [hid])
  | cons p ps ih =>
    simp only [List.cons_append]
    rw [List.find?_cons_of_neg _ (by simp [hpre p (List.mem_cons_self p ps)])]
    exact ih fun s hs => hpre s (List.mem_cons_of_mem p hs)

/-- Effect of the two optimistic updates on a store in which exactly
one session carries the target id. -/
theorem handleSendStart_eq (pre post : Store) (s0 : ChatSession)
    (sid content : Str) (atts : List Attachment) (hid : s0.id = sid)
    (hpre : ∀ s ∈ pre, s.id ≠ sid) (hpost : ∀ s ∈ post, s.id ≠ sid) :
    handleSendStart (pre ++ s0 :: post) sid content atts =
      some (pre ++ { s0 with
        title := if s0.messages.length = 0 then titleFor content else s0.title,
        messages := (s0.messages ++ [⟨Role.user, content, some atts⟩]) ++
          [⟨Role.assistant, [], none⟩] } :: post) := by
  simp only [handleSendStart, find?_session sid pre post s0 hid hpre]
  rw [updateSessions_eq sid _ pre post s0 hid hpre hpost]
  rw [updateSessions_eq sid _ pre post
    { s0 with title := (if s0.messages.length = 0 then titleFor content else s0.title),
              messages := s0.messages ++ [⟨Role.user, content, some atts⟩] }
    hid hpre hpost]

/-- State captured by the `onChunk` closure of one exchange: the store,
the closure-scoped `aiContent` and `lastUpdate`, and a log `pubs` of the
snapshots passed to a store merge, used only for specification. -/
structure StreamAcc where
  store : Store
  aiContent : Str
  lastUpdate : Nat
  pubs : List Str
deriving DecidableEq

/-- The store merge inside the `onChunk` callback and the final update
(src/App.tsx lines 220-228 and 234-241): replace the content of the
last message if its role is assistant.  (On an empty message list the
source would fault reading `msgs[msgs.length - 1].role`; that case is
unreachable here because the placeholder was appended.) -/
def mergeLast (sid text : Str) (store : Store) : Store :=
  updateSessions sid (fun s =>
    match s.messages.getLast? with
    | some m =>
      if m.role = Role.assistant then
        { s with messages := s.messages.dropLast ++ [{ m with content := text }] }
      else s
    | none => s) store

/-- One `onChunk(chunk)` call (src/App.tsx lines 216-231), arriving at
time `td.1` (`Date.now()`) with delta `td.2`: accumulate, then publish
iff `now - lastUpdate > 100`. -/
def onChunkStep (sid : Str) (acc : StreamAcc) (td : Nat × Str) : StreamAcc :=
  let ai := acc.aiContent ++ td.2
  if 100 < td.1 - acc.lastUpdate then
    { store := mergeLast sid ai acc.store, aiContent := ai,
      lastUpdate := td.1, pubs := acc.pubs ++ [ai] }
  else
    { acc with aiContent := ai }

/-- The whole streaming phase of one exchange: the deltas in arrival
order with their arrival times. -/
def streamPhase (sid : Str) (acc : StreamAcc) (tds : List (Nat × Str)) : StreamAcc :=
  tds.foldl (onChunkStep sid) acc

/-- `handleSendMessage` on the success path: the optimistic updates,
the stream with its throttled merges, then the unconditional final
merge of the full `aiContent` (src/App.tsx lines 233-241). -/
def handleSendSuccess (store : Store) (sid content : Str)
    (atts : List Attachment) (tds : List (Nat × Str)) : Store :=
  match handleSendStart store sid content atts with
  | none => store
  | some store2 =>
    mergeLast sid (streamPhase sid ⟨store2, [], 0, []⟩ tds).aiContent
      (streamPhase sid ⟨store2, [], 0, []⟩ tds).store

/-- The `catch` block of `handleSendMessage` (src/App.tsx lines
243-257): replace the last message when it is the still-empty assistant
placeholder, otherwise push the error message. -/
def finalizeError (sid errContent : Str) (store : Store) : Store :=
  updateSessions sid (fun s =>
    match s.messages.getLast? with
    | some m =>
      if m.role = Role.assistant ∧ m.content = [] then
        { s with messages :=
            s.messages.dropLast ++ [⟨Role.assistant, errContent, none⟩] }
      else { s with messages := s.messages ++ [⟨Role.assistant, errContent, none⟩] }
    | none => { s with messages := s.messages ++ [⟨Role.assistant, errContent, none⟩] })
    store

/-- `handleSendMessage` on the error path: the stream delivers `tds`,
then `streamChat` rejects with message `errRaw` (the
`error.message || "Sorry, ..."` fallback already applied); the catch
block appends `Error: ` to it. -/
def handleSendError (store : Store) (sid content : Str) (atts : List Attachment)
    (tds : List (Nat × Str)) (errRaw : Str) : Store :=
  match handleSendStart store sid content atts with
  | none => store
  | some store2 =>
    finalizeError sid (str "Error: " ++ errRaw)
      (streamPhase sid ⟨store2, [], 0, []⟩ tds).store

/-- The credential check at the top of `streamChat` (src/services/api.ts
lines 166-170): `config.apiKey || import.meta.env.VITE_OPENROUTER_API_KEY`,
throwing before any network call when the result is empty.  Returns the
message of the thrown error, or `none` when the check passes. -/
def credCheck (apiKey envKey : Str) : Option Str :=
  if (if apiKey = [] then envKey else apiKey) = [] then
    some (str "API key is required. Please set it in Settings.")
  else none

/-- The publish schedule of the throttle, determined by the timestamps
alone: the successive snapshots passed to a store merge while streaming,
starting from accumulated text `ai` and last publish time `lu`. -/
def pubsSpec (ai : Str) (lu : Nat) : List (Nat × Str) → List Str
  | [] => []
  | (t, d) :: rest =>
    if 100 < t - lu then (ai ++ d) :: pubsSpec (ai ++ d) t rest
    else pubsSpec (ai ++ d) lu rest

/-- The value of `lastUpdate` after a streaming phase. -/
def luSpec (lu : Nat) : List (Nat × Str) → Nat
  | [] => lu
  | (t, _) :: rest => if 100 < t - lu then luSpec t rest else luSpec lu rest

theorem getLast?_getD_cons {α : Type} (P : List α) : ∀ x d : α,
    (x :: P).getLast?.getD d = P.getLast?.getD x := by
  induction P with
  | nil => intro x d; simp
  | cons y ys ih =>
    intro x d
    rw [List.getLast?_cons_cons, ih y d, ih y x]

theorem mergeLast_shape (sid text : Str) (pre post : Store) (i : Str)
    (pj : Option Str) (ttl : Str) (ts : Nat)
    (base : List Message) (c : Str) (hid : i = sid)
    (hpre : ∀ s ∈ pre, s.id ≠ sid) (hpost : ∀ s ∈ post, s.id ≠ sid) :
    mergeLast sid text
        (pre ++ (⟨i, pj, ttl, base ++ [⟨Role.assistant, c, none⟩], ts⟩ : ChatSession) :: post) =
      pre ++ (⟨i, pj, ttl, base ++ [⟨Role.assistant, text, none⟩], ts⟩ : ChatSession) :: post := by
  have h := updateSessions_eq sid (fun s =>
    match s.messages.getLast? with
    | some m =>
      if m.role = Role.assistant then
        { s with messages := s.messages.dropLast ++ [{ m with content := text }] }
      else s
    | none => s) pre post ⟨i, pj, ttl, base ++ [⟨Role.assistant, c, none⟩], ts⟩
    hid hpre hpost
  rw [mergeLast, h]
  simp

/-- Master lemma for the streaming phase on a store whose target
session ends in the assistant placeholder: the accumulated text is the
concatenation of all deltas, the merge log follows `pubsSpec`, and the
placeholder's stored content is the last published snapshot (or its
previous content when nothing was published). -/
theorem streamPhase_spec (sid : Str) (pre post : Store) (i : Str)
    (pj : Option Str) (ttl : Str) (ts : Nat)
    (base : List Message) (hid : i = sid)
    (hpre : ∀ s ∈ pre, s.id ≠ sid) (hpost : ∀ s ∈ post, s.id ≠ sid) :
    ∀ (tds : List (Nat × Str)) (c0 ai0 : Str) (lu : Nat) (pb : List Str),
      streamPhase sid
          ⟨pre ++ (⟨i, pj, ttl, base ++ [⟨Role.assistant, c0, none⟩], ts⟩ : ChatSession) :: post,
           ai0, lu, pb⟩ tds =
        ⟨pre ++ (⟨i, pj, ttl,
            base ++ [⟨Role.assistant, (pubsSpec ai0 lu tds).getLastD c0, none⟩], ts⟩ : ChatSession) :: post,
         ai0 ++ joinStr (tds.map Prod.snd), luSpec lu tds,
         pb ++ pubsSpec ai0 lu tds⟩ := by
  intro tds
  induction tds with
  | nil =>
    intro c0 ai0 lu pb
    simp [streamPhase, pubsSpec, luSpec, joinStr]
  | cons td rest ih =>
    intro c0 ai0 lu pb
    cases td with
    | mk t d =>
      by_cases hpub : 100 < t - lu
      · have hstep : onChunkStep sid
            ⟨pre ++ (⟨i, pj, ttl, base ++ [⟨Role.assistant, c0, none⟩], ts⟩ : ChatSession) :: post,
             ai0, lu, pb⟩ (t, d) =
            ⟨pre ++ (⟨i, pj, ttl,
                base ++ [⟨Role.assistant, ai0 ++ d, none⟩], ts⟩ : ChatSession) :: post,
             ai0 ++ d, t, pb ++ [ai0 ++ d]⟩ := by
          simp only [onChunkStep, hpub, if_true]
          rw [mergeLast_shape sid (ai0 ++ d) pre post i pj ttl ts base c0 hid hpre hpost]
        have hfold : streamPhase sid
            ⟨pre ++ (⟨i, pj, ttl, base ++ [⟨Role.assistant, c0, none⟩], ts⟩ : ChatSession) :: post,
             ai0, lu, pb⟩ ((t, d) :: rest) =
            streamPhase sid (onChunkStep sid
              ⟨pre ++ (⟨i, pj, ttl, base ++ [⟨Role.assistant, c0, none⟩], ts⟩ : ChatSession) :: post,
               ai0, lu, pb⟩ (t, d)) rest := rfl
        rw [hfold, hstep, ih (ai0 ++ d) (ai0 ++ d) t (pb ++ [ai0 ++ d])]
        simp [pubsSpec, luSpec, hpub, joinStr, getLast?_getD_cons]
      · have hstep : onChunkStep sid
            ⟨pre ++ (⟨i, pj, ttl, base ++ [⟨Role.assistant, c0, none⟩], ts⟩ : ChatSession) :: post,
             ai0, lu, pb⟩ (t, d) =
            ⟨pre ++ (⟨i, pj, ttl,
                base ++ [⟨Role.assistant, c0, none⟩], ts⟩ : ChatSession) :: post,
             ai0 ++ d, lu, pb⟩ := by
          simp only [onChunkStep, hpub, if_false]
        have hfold : streamPhase sid
            ⟨pre ++ (⟨i, pj, ttl, base ++ [⟨Role.assistant, c0, none⟩], ts⟩ : ChatSession) :: post,
             ai0, lu, pb⟩ ((t, d) :: rest) =
            streamPhase sid (onChunkStep sid
              ⟨pre ++ (⟨i, pj, ttl, base ++ [⟨Role.assistant, c0, none⟩], ts⟩ : ChatSession) :: post,
               ai0, lu, pb⟩ (t, d)) rest := rfl
        rw [hfold, hstep, ih c0 (ai0 ++ d) lu pb]
        simp [pubsSpec, luSpec, hpub, joinStr]

/-- Claim C2: on the success path, whatever the throttle interval did
during streaming and whenever the deltas arrived, the final
unconditional merge leaves the placeholder holding exactly the
concatenation of all deltas: the last value merged into the store is
the full accumulated text, never a stale snapshot. -/
theorem C2_final_flush (pre post : Store) (s0 : ChatSession) (sid content : Str)
    (atts : List Attachment) (tds : List (Nat × Str)) (hid : s0.id = sid)
    (hpre : ∀ s ∈ pre, s.id ≠ sid) (hpost : ∀ s ∈ post, s.id ≠ sid) :
    handleSendSuccess (pre ++ s0 :: post) sid content atts tds =
      pre ++ { s0 with
        title := (if s0.messages.length = 0 then titleFor content else s0.title),
        messages := s0.messages ++ [⟨Role.user, content, some atts⟩,
          ⟨Role.assistant, joinStr (tds.map Prod.snd), none⟩] } :: post := by
  have hstart := handleSendStart_eq pre post s0 sid content atts hid hpre hpost
  have hphase := streamPhase_spec sid pre post s0.id s0.projectId
      (if s0.messages.length = 0 then titleFor content else s0.title) s0.timestamp
      (s0.messages ++ [⟨Role.user, content, some atts⟩]) hid hpre hpost tds [] [] 0 []
  simp only [handleSendSuccess, hstart]
  rw [hphase]
  simp only []
  have hm := mergeLast_shape sid ([] ++ joinStr (tds.map Prod.snd)) pre post s0.id
      s0.projectId (if s0.messages.length = 0 then titleFor content else s0.title)
      s0.timestamp (s0.messages ++ [⟨Role.user, content, some atts⟩])
      ((pubsSpec [] 0 tds).getLastD []) hid hpre hpost
  rw [hm]
  simp

theorem C2_final_flush_witness :
    handleSendSuccess [⟨str "s", none, str "New Chat", [], 0⟩] (str "s") (str "Hi") []
        [(200, str "Hel"), (250, str "lo")] =
      [⟨str "s", none, titleFor (str "Hi"),
        [⟨Role.user, str "Hi", some []⟩,
         ⟨Role.assistant, joinStr [str "Hel", str "lo"], none⟩], 0⟩] := by
  have h := C2_final_flush [] [] ⟨str "s", none, str "New Chat", [], 0⟩ (str "s")
    (str "Hi") [] [(200, str "Hel"), (250, str "lo")] rfl (by simp) (by simp)
  simpa using h

/-- The publish log, accumulated text and `lastUpdate` of a streaming
phase do not depend on the store contents. -/
theorem streamPhase_pubs (sid : Str) :
    ∀ (tds : List (Nat × Str)) (st : Store) (ai : Str) (lu : Nat) (pb : List Str),
      (streamPhase sid ⟨st, ai, lu, pb⟩ tds).pubs = pb ++ pubsSpec ai lu tds ∧
      (streamPhase sid ⟨st, ai, lu, pb⟩ tds).aiContent = ai ++ joinStr (tds.map Prod.snd) ∧
      (streamPhase sid ⟨st, ai, lu, pb⟩ tds).lastUpdate = luSpec lu tds := by
  intro tds
  induction tds with
  | nil => intro st ai lu pb; simp [streamPhase, pubsSpec, luSpec, joinStr]
  | cons td rest ih =>
    intro st ai lu pb
    cases td with
    | mk t d =>
      by_cases hpub : 100 < t - lu
      · have hstep : streamPhase sid ⟨st, ai, lu, pb⟩ ((t, d) :: rest) =
            streamPhase sid ⟨mergeLast sid (ai ++ d) st, ai ++ d, t, pb ++ [ai ++ d]⟩ rest := by
          show streamPhase sid (onChunkStep sid ⟨st, ai, lu, pb⟩ (t, d)) rest = _
          simp [onChunkStep, hpub]
        rw [hstep]
        rcases ih (mergeLast sid (ai ++ d) st) (ai ++ d) t (pb ++ [ai ++ d]) with ⟨h1, h2, h3⟩
        refine ⟨?_, ?_, ?_⟩
        · rw [h1]; simp [pubsSpec, hpub]
        · rw [h2]; simp [joinStr]
        · rw [h3]; simp [luSpec, hpub]
      · have hstep : streamPhase sid ⟨st, ai, lu, pb⟩ ((t, d) :: rest) =
            streamPhase sid ⟨st, ai ++ d, lu, pb⟩ rest := by
          show streamPhase sid (onChunkStep sid ⟨st, ai, lu, pb⟩ (t, d)) rest = _
          simp [onChunkStep, hpub]
        rw [hstep]
        rcases ih st (ai ++ d) lu pb with ⟨h1, h2, h3⟩
        refine ⟨?_, ?_, ?_⟩
        · rw [h1]; simp [pubsSpec, hpub]
        · rw [h2]; simp [joinStr]
        · rw [h3]; simp [luSpec, hpub]

/-- Claim C6, counterexample: with `lastPublish = 0`, a delta arriving
at `now = 100` has `now − lastPublish ≥ 100`, so the claim says it is
published — but the code tests `now - lastUpdate > 100` strictly, so it
defers: nothing is published and the store is untouched. -/
theorem C6_throttle_counterexample :
    (100 : Nat) - 0 ≥ 100 ∧
    (onChunkStep (str "s")
      ⟨[⟨str "s", none, str "T", [⟨Role.assistant, [], none⟩], 0⟩], [], 0, []⟩
      (100, str "x")).pubs = [] ∧
    (onChunkStep (str "s")
      ⟨[⟨str "s", none, str "T", [⟨Role.assistant, [], none⟩], 0⟩], [], 0, []⟩
      (100, str "x")).store =
      [⟨str "s", none, str "T", [⟨Role.assistant, [], none⟩], 0⟩] := by
  refine ⟨by decide, by decide, by decide⟩

/-- Claim C6, amended: on each delta arrival the callback publishes the
current snapshot (merging it into the store and logging it) exactly
when `now − lastPublish > 100` ms strictly — at a gap of exactly 100 ms
it defers — and then sets `lastPublish = now`; over a whole streaming
phase the published snapshots follow the timestamp-determined schedule
`pubsSpec`. -/
theorem C6_throttle_amended (sid : Str) (acc : StreamAcc) (t : Nat) (d : Str)
    (tds : List (Nat × Str)) (st : Store) (ai : Str) (lu : Nat) (pb : List Str) :
    ((onChunkStep sid acc (t, d)).store =
        (if 100 < t - acc.lastUpdate then mergeLast sid (acc.aiContent ++ d) acc.store
         else acc.store)) ∧
    ((onChunkStep sid acc (t, d)).pubs =
        acc.pubs ++ (if 100 < t - acc.lastUpdate then [acc.aiContent ++ d] else [])) ∧
    ((onChunkStep sid acc (t, d)).lastUpdate =
        (if 100 < t - acc.lastUpdate then t else acc.lastUpdate)) ∧
    (streamPhase sid ⟨st, ai, lu, pb⟩ tds).pubs = pb ++ pubsSpec ai lu tds := by
  refine ⟨?_, ?_, ?_, (streamPhase_pubs sid tds st ai lu pb).1⟩ <;>
    by_cases hpub : 100 < t - acc.lastUpdate <;> simp [onChunkStep, hpub]

/-- The claim-C1 interleaving: exchange A is started on session `sid`,
exchange B is started on the same session while A's transport is still
delivering, then one late delta of A arrives at time `t` and A's
callback (with its own captured `aiContent = ""` and `lastUpdate = 0`)
runs against the store. -/
def supersessionRun (store : Store) (sid cA cB deltaA : Str)
    (attsA attsB : List Attachment) (t : Nat) : Store :=
  match handleSendStart store sid cA attsA with
  | none => store
  | some storeA =>
    match handleSendStart storeA sid cB attsB with
    | none => storeA
    | some storeB => (onChunkStep sid ⟨storeB, [], 0, []⟩ (t, deltaA)).store

/-- Claim C1, counterexample: exchange B is started on the session
while exchange A still streams; A's late delta `HELLO-A` then arrives
and is merged — it overwrites B's placeholder, since the merge guard
compares only the session id (the code has no exchange id at all).  The
final store contains A's late delta, which the claim says can never
appear. -/
theorem C1_supersession_counterexample :
    supersessionRun [⟨str "s", none, str "New Chat", [], 0⟩] (str "s")
        (str "a") (str "b") (str "HELLO-A") [] [] 200 =
      [⟨str "s", none, str "a",
        [⟨Role.user, str "a", some []⟩, ⟨Role.assistant, [], none⟩,
         ⟨Role.user, str "b", some []⟩, ⟨Role.assistant, str "HELLO-A", none⟩], 0⟩] ∧
    (∃ s ∈ supersessionRun [⟨str "s", none, str "New Chat", [], 0⟩] (str "s")
        (str "a") (str "b") (str "HELLO-A") [] [] 200,
      ∃ m ∈ s.messages, m.content = str "HELLO-A") := by
  refine ⟨by decide, by decide⟩

/-- Claim C1, amended: merges are guarded only by the captured session
id.  A merge whose session id matches no session in the store is a
no-op, but a late delta of superseded exchange A on the same session is
merged into the last assistant message — exchange B's placeholder — so
A's late delta appears in the final store in B's placeholder. -/
theorem C1_supersession_amended (pre post : Store) (s0 : ChatSession)
    (sid cA cB deltaA : Str) (attsA attsB : List Attachment) (t : Nat)
    (hid : s0.id = sid) (hpre : ∀ s ∈ pre, s.id ≠ sid)
    (hpost : ∀ s ∈ post, s.id ≠ sid) (ht : 100 < t) :
    supersessionRun (pre ++ s0 :: post) sid cA cB deltaA attsA attsB t =
      pre ++ { s0 with
        title := (if s0.messages.length = 0 then titleFor cA else s0.title),
        messages := s0.messages ++ [⟨Role.user, cA, some attsA⟩,
          ⟨Role.assistant, [], none⟩, ⟨Role.user, cB, some attsB⟩,
          ⟨Role.assistant, deltaA, none⟩] } :: post ∧
    (∀ (f : ChatSession → ChatSession) (store : Store),
      (∀ s ∈ store, s.id ≠ sid) → updateSessions sid f store = store) := by
  constructor
  · have hA := handleSendStart_eq pre post s0 sid cA attsA hid hpre hpost
    have hB : handleSendStart (pre ++ (⟨s0.id, s0.projectId,
          (if s0.messages.length = 0 then titleFor cA else s0.title),
          (s0.messages ++ [⟨Role.user, cA, some attsA⟩]) ++ [⟨Role.assistant, [], none⟩],
          s0.timestamp⟩ : ChatSession) :: post) sid cB attsB =
        some (pre ++ (⟨s0.id, s0.projectId,
          (if s0.messages.length = 0 then titleFor cA else s0.title),
          ((((s0.messages ++ [⟨Role.user, cA, some attsA⟩]) ++
              [⟨Role.assistant, [], none⟩]) ++ [⟨Role.user, cB, some attsB⟩]) ++
            [⟨Role.assistant, [], none⟩]),
          s0.timestamp⟩ : ChatSession) :: post) := by
      have h := handleSendStart_eq pre post ⟨s0.id, s0.projectId,
          (if s0.messages.length = 0 then titleFor cA else s0.title),
          (s0.messages ++ [⟨Role.user, cA, some attsA⟩]) ++ [⟨Role.assistant, [], none⟩],
          s0.timestamp⟩ sid cB attsB hid hpre hpost
      simpa using h
    simp only [supersessionRun, hA, hB]
    have hpub : 100 < t - 0 := by simpa using ht
    simp only [onChunkStep, hpub, if_true]
    have hm := mergeLast_shape sid (([] : Str) ++ deltaA) pre post s0.id s0.projectId
      (if s0.messages.length = 0 then titleFor cA else s0.title) s0.timestamp
      (((s0.messages ++ [⟨Role.user, cA, some attsA⟩]) ++
        [⟨Role.assistant, [], none⟩]) ++ [⟨Role.user, cB, some attsB⟩])
      [] hid hpre hpost
    rw [hm]
    simp
  · exact fun f store h => updateSessions_nomatch sid f store h

theorem C1_supersession_amended_witness :
    supersessionRun [⟨str "s", none, str "New Chat", [], 0⟩] (str "s")
        (str "x") (str "y") (str "late") [] [] 150 =
      [⟨str "s", none, titleFor (str "x"),
        [⟨Role.user, str "x", some []⟩, ⟨Role.assistant, [], none⟩,
         ⟨Role.user, str "y", some []⟩, ⟨Role.assistant, str "late", none⟩], 0⟩] := by
  have h := C1_supersession_amended [] [] ⟨str "s", none, str "New Chat", [], 0⟩
    (str "s") (str "x") (str "y") (str "late") [] [] 150 rfl (by simp) (by simp)
    (by decide)
  simpa using h.1

/-- Title derivation as the spec words it (claim C7): the first 30
characters of the message's trimmed text, with a placeholder default
when the trimmed text is empty.  Stated for comparison with the code,
which slices the raw, untrimmed content. -/
def specTitle (content : Str) : Str :=
  if (trimStr content).take 30 = [] then str "New Chat" else (trimStr content).take 30

/-- Claim C7, counterexample: sending the single-space message ` ` (it
can be sent when attachments are present) as the first message of a
session sets the title to ` ` — the code computes
`content.slice(0, 30) || "New Chat"` on the raw text — while the claim
says the title is derived from the trimmed text, which is empty, so the
claim requires the fixed placeholder title. -/
theorem C7_title_counterexample :
    handleSendStart [⟨str "s", none, str "New Chat", [], 0⟩] (str "s") (str " ") [] =
      some [⟨str "s", none, str " ",
        [⟨Role.user, str " ", some []⟩, ⟨Role.assistant, [], none⟩], 0⟩] ∧
    specTitle (str " ") = str "New Chat" ∧
    str " " ≠ str "New Chat" := by
  refine ⟨by decide, by decide, by decide⟩

/-- Claim C7, amended: the session title is computed at the time the
user message is appended — and only when the session previously had no
messages — as the first 30 characters of the message's raw, untrimmed
text, defaulting to the fixed placeholder title when that slice is
empty; the streaming and error merges never change any session's
title, so it is never recomputed from assistant content. -/
theorem C7_title_amended (pre post : Store) (s0 : ChatSession)
    (sid content text ec : Str) (atts : List Attachment) (hid : s0.id = sid)
    (hpre : ∀ s ∈ pre, s.id ≠ sid) (hpost : ∀ s ∈ post, s.id ≠ sid) :
    handleSendStart (pre ++ s0 :: post) sid content atts =
      some (pre ++ { s0 with
        title := (if s0.messages.length = 0 then titleFor content else s0.title),
        messages := (s0.messages ++ [⟨Role.user, content, some atts⟩]) ++
          [⟨Role.assistant, [], none⟩] } :: post) ∧
    (∀ store : Store,
      (mergeLast sid text store).map ChatSession.title = store.map ChatSession.title) ∧
    (∀ store : Store,
      (finalizeError sid ec store).map ChatSession.title = store.map ChatSession.title) := by
  refine ⟨handleSendStart_eq pre post s0 sid content atts hid hpre hpost, ?_, ?_⟩
  · intro store
    simp only [mergeLast, updateSessions, List.map_map]
    refine List.map_congr_left fun s _ => ?_
    by_cases h : s.id = sid
    · simp only [Function.comp_apply, if_pos h]
      cases s.messages.getLast? with
      | none => rfl
      | some m => by_cases hr : m.role = Role.assistant <;> simp [hr]
    · simp [h]
  · intro store
    simp only [finalizeError, updateSessions, List.map_map]
    refine List.map_congr_left fun s _ => ?_
    by_cases h : s.id = sid
    · simp only [Function.comp_apply, if_pos h]
      cases s.messages.getLast? with
      | none => rfl
      | some m =>
        by_cases hr : m.role = Role.assistant ∧ m.content = [] <;> simp [hr]
    · simp [h]

theorem C7_title_amended_witness :
    handleSendStart [⟨str "s", none, str "Old", [], 5⟩] (str "s") (str "Hello world") [] =
      some [⟨str "s", none, titleFor (str "Hello world"),
        [⟨Role.user, str "Hello world", some []⟩, ⟨Role.assistant, [], none⟩], 5⟩] ∧
    (mergeLast (str "s") (str "abc")
        [⟨str "s", none, str "T", [⟨Role.assistant, [], none⟩], 0⟩]).map
      ChatSession.title =
      ([⟨str "s", none, str "T", [⟨Role.assistant, [], none⟩], 0⟩] : Store).map
        ChatSession.title := by
  have h := C7_title_amended [] [] ⟨str "s", none, str "Old", [], 5⟩ (str "s")
    (str "Hello world") (str "abc") (str "e") [] rfl (by simp) (by simp)
  exact ⟨by simpa using h.1, h.2.1 _⟩

/-- Every snapshot in the publish schedule ends with the delta that
triggered it, so when all deltas are non-empty so is every published
snapshot. -/
theorem pubsSpec_ne_nil (tds : List (Nat × Str)) (hne : ∀ td ∈ tds, td.2 ≠ []) :
    ∀ (ai : Str) (lu : Nat), ∀ p ∈ pubsSpec ai lu tds, p ≠ [] := by
  induction tds with
  | nil => intro ai lu p hp; simp [pubsSpec] at hp
  | cons td rest ih =>
    intro ai lu p hp
    cases td with
    | mk t d =>
      have hd : d ≠ [] := hne (t, d) (List.mem_cons_self _ _)
      have hrest := ih fun x hx => hne x (List.mem_cons_of_mem _ hx)
      simp only [pubsSpec] at hp
      by_cases h : 100 < t - lu
      · rw [if_pos h] at hp
        rcases List.mem_cons.mp hp with h1 | h1
        · subst h1
          intro hcontra
          exact hd (List.append_eq_nil.mp hcontra).2
        · exact hrest (ai ++ d) t p h1
      · rw [if_neg h] at hp
        exact hrest (ai ++ d) lu p hp

theorem finalizeError_replace (sid ec : Str) (pre post : Store) (i : Str)
    (pj : Option Str) (ttl : Str) (ts : Nat) (base : List Message)
    (hid : i = sid) (hpre : ∀ s ∈ pre, s.id ≠ sid) (hpost : ∀ s ∈ post, s.id ≠ sid) :
    finalizeError sid ec
        (pre ++ (⟨i, pj, ttl, base ++ [⟨Role.assistant, [], none⟩], ts⟩ : ChatSession) :: post) =
      pre ++ (⟨i, pj, ttl, base ++ [⟨Role.assistant, ec, none⟩], ts⟩ : ChatSession) :: post := by
  have h := updateSessions_eq sid (fun s =>
    match s.messages.getLast? with
    | some m =>
      if m.role = Role.assistant ∧ m.content = [] then
        { s with messages :=
            s.messages.dropLast ++ [⟨Role.assistant, ec, none⟩] }
      else { s with messages := s.messages ++ [⟨Role.assistant, ec, none⟩] }
    | none => { s with messages := s.messages ++ [⟨Role.assistant, ec, none⟩] })
    pre post ⟨i, pj, ttl, base ++ [⟨Role.assistant, [], none⟩], ts⟩ hid hpre hpost
  rw [finalizeError, h]
  simp

theorem finalizeError_push (sid ec : Str) (pre post : Store) (i : Str)
    (pj : Option Str) (ttl : Str) (ts : Nat) (base : List Message) (c : Str)
    (hc : c ≠ []) (hid : i = sid)
    (hpre : ∀ s ∈ pre, s.id ≠ sid) (hpost : ∀ s ∈ post, s.id ≠ sid) :
    finalizeError sid ec
        (pre ++ (⟨i, pj, ttl, base ++ [⟨Role.assistant, c, none⟩], ts⟩ : ChatSession) :: post) =
      pre ++ (⟨i, pj, ttl, (base ++ [⟨Role.assistant, c, none⟩]) ++
        [⟨Role.assistant, ec, none⟩], ts⟩ : ChatSession) :: post := by
  have h := updateSessions_eq sid (fun s =>
    match s.messages.getLast? with
    | some m =>
      if m.role = Role.assistant ∧ m.content = [] then
        { s with messages :=
            s.messages.dropLast ++ [⟨Role.assistant, ec, none⟩] }
      else { s with messages := s.messages ++ [⟨Role.assistant, ec, none⟩] }
    | none => { s with messages := s.messages ++ [⟨Role.assistant, ec, none⟩] })
    pre post ⟨i, pj, ttl, base ++ [⟨Role.assistant, c, none⟩], ts⟩ hid hpre hpost
  rw [finalizeError, h]
  simp [hc]

/-- Claim C8, counterexample: a delta `Hel` is published, then the
stream fails with message `boom`.  The placeholder is not finalized
with the error string: it keeps the partial text `Hel`, and the error
is appended as a separate assistant message — so the claim that the
placeholder itself is always finalized with an `Error:`-prefixed string
fails. -/
theorem C8_error_finalization_counterexample :
    handleSendError [⟨str "s", none, str "New Chat", [], 0⟩] (str "s") (str "q") []
        [(200, str "Hel")] (str "boom") =
      [⟨str "s", none, str "q",
        [⟨Role.user, str "q", some []⟩, ⟨Role.assistant, str "Hel", none⟩,
         ⟨Role.assistant, str "Error: boom", none⟩], 0⟩] ∧
    ¬ (str "Error: ").isPrefixOf (str "Hel") = true := by
  refine ⟨by decide, by decide⟩

/-- Claim C8, amended: a failed exchange always surfaces a persisted
assistant message whose content is the non-empty string
`Error: <message>`: when the placeholder is still empty (in particular
for a missing API credential, which throws before any network call and
before any delta) the placeholder itself is finalized with that string;
when published deltas already filled the placeholder, the placeholder
keeps the partial text and the error message is appended as a new
assistant message. -/
theorem C8_error_finalization_amended (pre post : Store) (s0 : ChatSession)
    (sid content errRaw : Str) (atts : List Attachment) (tds : List (Nat × Str))
    (hid : s0.id = sid) (hpre : ∀ s ∈ pre, s.id ≠ sid)
    (hpost : ∀ s ∈ post, s.id ≠ sid) (hne : ∀ td ∈ tds, td.2 ≠ []) :
    handleSendError (pre ++ s0 :: post) sid content atts tds errRaw =
      pre ++ { s0 with
        title := (if s0.messages.length = 0 then titleFor content else s0.title),
        messages := (s0.messages ++ [⟨Role.user, content, some atts⟩]) ++
          (match (pubsSpec [] 0 tds).getLast? with
           | none => [⟨Role.assistant, str "Error: " ++ errRaw, none⟩]
           | some pc => [⟨Role.assistant, pc, none⟩,
               ⟨Role.assistant, str "Error: " ++ errRaw, none⟩]) } :: post ∧
    credCheck [] [] = some (str "API key is required. Please set it in Settings.") ∧
    str "Error: " ++ errRaw ≠ [] ∧
    (str "Error: ").isPrefixOf (str "Error: " ++ errRaw) = true := by
  refine ⟨?_, rfl, ?_, ?_⟩
  · have hstart := handleSendStart_eq pre post s0 sid content atts hid hpre hpost
    have hphase := streamPhase_spec sid pre post s0.id s0.projectId
        (if s0.messages.length = 0 then titleFor content else s0.title) s0.timestamp
        (s0.messages ++ [⟨Role.user, content, some atts⟩]) hid hpre hpost tds [] [] 0 []
    simp only [handleSendError, hstart]
    rw [hphase]
    simp only []
    cases hp : (pubsSpec [] 0 tds).getLast? with
    | none =>
      have hnil : pubsSpec [] 0 tds = [] := List.getLast?_eq_none_iff.mp hp
      rw [hnil]
      have hr := finalizeError_replace sid (str "Error: " ++ errRaw) pre post s0.id
        s0.projectId (if s0.messages.length = 0 then titleFor content else s0.title)
        s0.timestamp (s0.messages ++ [⟨Role.user, content, some atts⟩]) hid hpre hpost
      rw [show ([] : List Str).getLastD ([] : Str) = [] from rfl]
      rw [hr]
    | some pc =>
      have hpcm : pc ∈ pubsSpec [] 0 tds := by
        rcases List.mem_getLast?_eq_getLast
          (show pc ∈ (pubsSpec [] 0 tds).getLast? from hp) with ⟨hnn, hpc_eq⟩
        rw [hpc_eq]
        exact List.getLast_mem hnn
      have hpc : pc ≠ [] := pubsSpec_ne_nil tds hne [] 0 pc hpcm
      have hd : (pubsSpec [] 0 tds).getLastD [] = pc := by
        rw [List.getLastD_eq_getLast?, hp]
        rfl
      rw [hd]
      have hr := finalizeError_push sid (str "Error: " ++ errRaw) pre post s0.id
        s0.projectId (if s0.messages.length = 0 then titleFor content else s0.title)
        s0.timestamp (s0.messages ++ [⟨Role.user, content, some atts⟩]) pc hpc
        hid hpre hpost
      rw [hr]
      simp
  · intro hcontra
    have hlen : (str "Error: " ++ errRaw).length = 0 := by rw [hcontra]; rfl
    rw [List.length_append] at hlen
    have h7 : (str "Error: ").length = 7 := by decide
    omega
  · exact List.isPrefixOf_iff_prefix.mpr ⟨errRaw, rfl⟩

theorem C8_error_finalization_amended_witness :
    handleSendError [⟨str "s", none, str "New Chat", [], 0⟩] (str "s") (str "q") []
        [] (str "API key is required. Please set it in Settings.") =
      [⟨str "s", none, titleFor (str "q"),
        [⟨Role.user, str "q", some []⟩,
         ⟨Role.assistant,
           str "Error: " ++ str "API key is required. Please set it in Settings.",
           none⟩], 0⟩] ∧
    credCheck [] [] = some (str "API key is required. Please set it in Settings.") := by
  have h := C8_error_finalization_amended [] [] ⟨str "s", none, str "New Chat", [], 0⟩
    (str "s") (str "q") (str "API key is required. Please set it in Settings.") [] []
    rfl (by simp) (by simp) (by simp)
  exact ⟨by simpa [pubsSpec] using h.1, h.2.1⟩

end ChatAI
